import Mathlib

/-!
Verification of the spectral quality analysis engine of the Audio-checker
repository (src/assets/js/modules/audio-utils.js, class TrueAudioDetector).

Magnitudes are decibel values; JavaScript floating-point numbers are
modelled by exact rationals.  Where the JavaScript code can produce the
non-finite sentinels Infinity / -Infinity (calculateDynamicRange), the
embedding uses Option, with none standing for a non-finite result.
-/

/-- JavaScript Math.round: rounds half toward positive infinity. -/
def jsRound (q : ℚ) : ℤ := ⌊q + 1/2⌋

/-- smoothArray(data, windowSize) from audio-utils.js: symmetric moving
average; at index i it averages the entries with index from
max(0, i - windowSize) to min(length - 1, i + windowSize), inclusive. -/
def smoothArray (data : List ℚ) (windowSize : ℕ) : List ℚ :=
  (List.range data.length).map (fun i =>
    let lo := i - windowSize
    let hi := min (data.length - 1) (i + windowSize)
    (∑ j ∈ Finset.Icc lo hi, data.getD j 0) / ((hi + 1 - lo : ℕ) : ℚ))

/-- detectArtificialCutoff(frequencyData, cutoffBin) from audio-utils.js:
window = min(50, length - cutoffBin - 1); returns false when window < 10,
otherwise sums the consecutive differences data[cutoffBin+i] -
data[cutoffBin+i-1] for i = 1 .. window-1, divides the sum by window and
compares with -3 dB per bin. -/
def detectArtificialCutoff (data : List ℚ) (cutoffBin : ℕ) : Bool :=
  let window := min 50 (data.length - cutoffBin - 1)
  if window < 10 then false
  else
    let slopeSum :=
      ∑ i ∈ Finset.Ico 1 window, (data.getD (cutoffBin + i) 0 - data.getD (cutoffBin + i - 1) 0)
    decide (slopeSum / (window : ℚ) < -3)

/-- The Cutoff record returned by findCutoffFrequency. -/
structure Cutoff where
  frequency : ℚ
  bin : ℕ
  isArtificial : Bool
  thresholdUsed : ℚ
deriving DecidableEq

/-- findCutoffFrequency(frequencyData) from audio-utils.js: smooths the
spectrum with radius 3 and scans all bins left to right, remembering the
last bin whose smoothed value exceeds -80 dB (0 when none does); the bin
is converted to Hz against a fixed 44100 Hz rate and rounded. -/
def findCutoffFrequency (data : List ℚ) : Cutoff :=
  let threshold : ℚ := -80
  let nyquist : ℚ := 44100 / 2
  let smoothed := smoothArray data 3
  let lastBin :=
    (List.range smoothed.length).foldl
      (fun acc i => if threshold < smoothed.getD i 0 then i else acc) 0
  { frequency := ((jsRound ((lastBin : ℚ) / ((data.length : ℚ) - 1) * nyquist) : ℤ) : ℚ)
    bin := lastBin
    isArtificial := detectArtificialCutoff data lastBin
    thresholdUsed := threshold }

/-- One step of the max loop of calculateDynamicRange: the JavaScript
accumulator starts at -Infinity (modelled none) and takes the value
data[i] whenever data[i] > max and data[i] < 0. -/
def negMaxStep (acc : Option ℚ) (x : ℚ) : Option ℚ :=
  match acc with
  | none => if x < 0 then some x else none
  | some m => if m < x ∧ x < 0 then some x else some m

/-- One step of the min loop of calculateDynamicRange: the JavaScript
accumulator starts at Infinity (modelled none) and takes the value
data[i] whenever data[i] < min. -/
def minStep (acc : Option ℚ) (x : ℚ) : Option ℚ :=
  match acc with
  | none => some x
  | some m => if x < m then some x else some m

/-- calculateDynamicRange(frequencyData) from audio-utils.js, returning
Math.abs(max - min); none models the non-finite (Infinity) result that
arises when one of the two accumulators never leaves its sentinel. -/
def calculateDynamicRange (data : List ℚ) : Option ℚ :=
  match data.foldl negMaxStep none, data.foldl minStep none with
  | some m, some mn => some |m - mn|
  | _, _ => none

/-- One entry of the peak list of findSpectralPeaks. -/
structure Peak where
  bin : ℕ
  frequency : ℚ
  magnitude : ℚ
deriving DecidableEq

/-- Loop-body condition of findSpectralPeaks for index i: the loop runs
for windowSize = 5 <= i < length - 5 and keeps i when data[i] strictly
exceeds data[i-j] and data[i+j] for every j = 1 .. 5 and exceeds -70. -/
def peakPredicate (data : List ℚ) (i : ℕ) : Bool :=
  decide (5 ≤ i) && decide (i + 5 < data.length) &&
  (List.range 5).all (fun j =>
    decide (data.getD (i - (j + 1)) 0 < data.getD i 0) &&
    decide (data.getD (i + (j + 1)) 0 < data.getD i 0)) &&
  decide ((-70 : ℚ) < data.getD i 0)

/-- findSpectralPeaks(frequencyData) from audio-utils.js: scans indices in
increasing order, pushes every index passing peakPredicate together with
its frequency and magnitude, and finally keeps the first 10 entries
(peaks.slice(0, 10)). -/
def findSpectralPeaks (data : List ℚ) : List Peak :=
  (((List.range data.length).filter (peakPredicate data)).map
    (fun i =>
      { bin := i
        frequency := (i : ℚ) / ((data.length : ℚ) - 1) * (44100 / 2)
        magnitude := data.getD i 0 })).take 10

/-- calculateConfidence(frequencyData, cutoff) from audio-utils.js: starts
at 100, multiplies by 0.7 when the dynamic range is below 30 dB (a
non-finite dynamic range fails the comparison, as Infinity < 30 does in
JavaScript), by 0.5 when the cutoff is artificial, by 0.8 when more than
5 peaks are found, then rounds and clamps to 0 .. 100. -/
def calculateConfidence (data : List ℚ) (cutoff : Cutoff) : ℤ :=
  let c0 : ℚ := 100
  let c1 :=
    match calculateDynamicRange data with
    | some d => if d < 30 then c0 * 0.7 else c0
    | none => c0
  let c2 := if cutoff.isArtificial then c1 * 0.5 else c1
  let c3 := if 5 < (findSpectralPeaks data).length then c2 * 0.8 else c2
  min 100 (max 0 (jsRound c3))

/-- The feature record that evaluateQuality reads (the analysis object
built by performSpectralAnalysis). -/
structure AnalysisFeatures where
  cutoff : Cutoff
  dynamicRange : ℚ
  hfEnergy : ℚ
  spectralFlatness : ℚ
  confidence : ℤ
deriving DecidableEq

/-- The Verdict record returned by evaluateQuality. -/
structure Verdict where
  qualityLabel : String
  qualityColor : String
  qualityScore : ℤ
  confidence : ℤ
  isUpscaled : Bool
  normalizedFreq : ℚ
deriving DecidableEq

/-- The tier dispatch of evaluateQuality on cutoff.frequency: the
normalizedScore value before the additive adjustments. -/
def baseQualityScore (freq : ℚ) : ℚ :=
  if 20000 ≤ freq then 100
  else if 18500 ≤ freq then 85 + (freq - 18500) / 1500 * 15
  else if 16000 ≤ freq then 60 + (freq - 16000) / 2500 * 25
  else if 14000 ≤ freq then 30 + (freq - 14000) / 2000 * 30
  else max 10 (freq / 14000 * 30)

/-- The tier label chosen by the same dispatch (qualityThresholds table). -/
def qualityLabelOf (freq : ℚ) : String :=
  if 20000 ≤ freq then "Lossless"
  else if 18500 ≤ freq then "High Quality"
  else if 16000 ≤ freq then "Moderate"
  else if 14000 ≤ freq then "Low Quality"
  else "Fake/Upscaled"

/-- The tier color chosen by the same dispatch (qualityThresholds table). -/
def qualityColorOf (freq : ℚ) : String :=
  if 20000 ≤ freq then "var(--color-excellent)"
  else if 18500 ≤ freq then "var(--color-good)"
  else if 16000 ≤ freq then "var(--color-moderate)"
  else "var(--color-bad)"

/-- evaluateQuality(analysis, sampleRate) from audio-utils.js: tier score
from the cutoff frequency, then +5 for hfEnergy > 5, +5 for
spectralFlatness > 0.8, +5 for dynamicRange > 50, -15 for an artificial
cutoff; the result is clamped to 0 .. 100 and rounded. -/
def evaluateQuality (analysis : AnalysisFeatures) (sampleRate : ℚ) : Verdict :=
  let freq := analysis.cutoff.frequency
  let s0 := baseQualityScore freq
  let s1 := if 5 < analysis.hfEnergy then s0 + 5 else s0
  let s2 := if (0.8 : ℚ) < analysis.spectralFlatness then s1 + 5 else s1
  let s3 := if 50 < analysis.dynamicRange then s2 + 5 else s2
  let s4 := if analysis.cutoff.isArtificial then s3 - 15 else s3
  { qualityLabel := qualityLabelOf freq
    qualityColor := qualityColorOf freq
    qualityScore := jsRound (min 100 (max 0 s4))
    confidence := analysis.confidence
    isUpscaled := analysis.cutoff.isArtificial
    normalizedFreq := min 100 (freq / (sampleRate / 2) * 100) }

/-- Linear power of a decibel magnitude: Math.pow(10, dB / 10). -/
noncomputable def linPower (x : ℚ) : ℝ := (10 : ℝ) ^ ((x : ℝ) / 10)

/-- calculateSpectralFlatness(frequencyData) from audio-utils.js: one loop
accumulates the logs of the per-bin linear powers and the powers
themselves; geometricMean = exp(logSum / n), arithmeticMean = powSum / n,
and the result is their ratio. -/
noncomputable def calculateSpectralFlatness (data : List ℚ) : ℝ :=
  let n := data.length
  let logSum := ∑ i ∈ Finset.range n, Real.log (linPower (data.getD i 0))
  let powSum := ∑ i ∈ Finset.range n, linPower (data.getD i 0)
  Real.exp (logSum / n) / (powSum / n)

/-- One queued file of the Batch Scheduler: fails tells whether its
pipeline (analyzeAudio) will throw, duration how many event-loop turns
its analysis takes. -/
structure BatchItem where
  id : ℕ
  fails : Bool
  duration : ℕ
deriving DecidableEq

/-- Scheduler state: the pending queue, the in-flight batch entries of
processingQueue paired with their remaining turns, and the terminal
items (results map for Done, error cards for Failed). -/
structure SchedState where
  queue : List BatchItem
  processing : List (BatchItem × ℕ)
  done : List BatchItem
  failed : List BatchItem
deriving DecidableEq

/-- One event-loop turn of processQueue / analyzeAudio.  When nothing is
in flight, processQueue takes up to limit items from the front of the
queue and launches them (Promise.allSettled); otherwise every in-flight
analysis advances one turn, and each analysis that finishes settles:
analyzeAudio catches its own error, so a finishing item lands in done or
failed according to its own fails flag only.  New items are admitted
only when processing is empty, because processQueue awaits the whole
batch before the next pass. -/
def tick (limit : ℕ) (s : SchedState) : SchedState :=
  if s.processing.isEmpty then
    if s.queue.isEmpty then s
    else
      { queue := s.queue.drop limit
        processing := (s.queue.take limit).map (fun it => (it, it.duration))
        done := s.done
        failed := s.failed }
  else
    { queue := s.queue
      processing := (s.processing.map (fun p => (p.1, p.2 - 1))).filter (fun p => decide (p.2 ≠ 0))
      done := s.done ++
        (((s.processing.map (fun p => (p.1, p.2 - 1))).filter (fun p => decide (p.2 = 0))).map
          Prod.fst).filter (fun it => !it.fails)
      failed := s.failed ++
        (((s.processing.map (fun p => (p.1, p.2 - 1))).filter (fun p => decide (p.2 = 0))).map
          Prod.fst).filter (fun it => it.fails) }

/-- Iterated scheduler turns. -/
def run (limit : ℕ) (s : SchedState) : ℕ → SchedState
  | 0 => s
  | n + 1 => run limit (tick limit s) n

/-- The state right after a batch of items is submitted. -/
def initState (items : List BatchItem) : SchedState :=
  { queue := items, processing := [], done := [], failed := [] }

/-- Termination measure for the scheduler. -/
def schedMeasure (s : SchedState) : ℕ :=
  (s.queue.map (fun it => it.duration + 2)).sum +
    (s.processing.map (fun p => p.2 + 1)).sum

/-- A scheduler state with nothing queued and nothing in flight. -/
def SchedState.terminal (s : SchedState) : Prop := s.queue = [] ∧ s.processing = []

/-- The peak notion stated by the specification: a bin whose magnitude
strictly exceeds every bin within a 5-bin radius on both sides (so both
full radii exist) and exceeds -70 dB. -/
def SpecIsPeak (data : List ℚ) (i : ℕ) : Prop :=
  5 ≤ i ∧ i + 5 < data.length ∧ (-70 : ℚ) < data.getD i 0 ∧
    ∀ j ∈ Finset.Icc 1 5,
      data.getD (i - j) 0 < data.getD i 0 ∧ data.getD (i + j) 0 < data.getD i 0

instance (data : List ℚ) (i : ℕ) : Decidable (SpecIsPeak data i) := by
  unfold SpecIsPeak; infer_instance

/-- Modelled from the claim wording of C5: the average per-bin slope over
the min(50, remaining) bins immediately following the cutoff bin, that
is, the mean of the w slopes at bins cutoffBin+1 .. cutoffBin+w where
w = min(50, length - cutoffBin - 1). -/
def avgSlopeClaim (data : List ℚ) (cutoffBin : ℕ) : ℚ :=
  let w := min 50 (data.length - cutoffBin - 1)
  (∑ i ∈ Finset.Icc 1 w, (data.getD (cutoffBin + i) 0 - data.getD (cutoffBin + i - 1) 0)) /
    (w : ℚ)

/-- Modelled from the claim wording of C4: max(magnitude where
magnitude < 0), taken as 0 when no magnitude is negative, minus
min(magnitude); none only when the spectrum is empty. -/
def dynamicRangeClaimed (data : List ℚ) : Option ℚ :=
  match data.foldl minStep none with
  | none => none
  | some mn =>
    match data.foldl negMaxStep none with
    | some m => some (m - mn)
    | none => some (0 - mn)

/-- Concrete spectrum with uniform per-bin slope -3.05 dB, used to
separate the claimed average-slope test from the implemented one. -/
def rampData : List ℚ := (List.range 52).map (fun i : ℕ => -(61 / 20 : ℚ) * (i : ℚ))

/-! ### Helper lemmas for the dynamic-range loops -/

lemma minStep_foldl (l : List ℚ) (a : ℚ) :
    ∃ m, l.foldl minStep (some a) = some m ∧ m ≤ a ∧ (m = a ∨ m ∈ l) ∧ ∀ x ∈ l, m ≤ x := by
  induction l generalizing a with
  | nil => exact ⟨a, rfl, le_rfl, Or.inl rfl, by simp⟩
  | cons x xs ih =>
    simp only [List.foldl_cons]
    by_cases hx : x < a
    · rw [show minStep (some a) x = some x by simp [minStep, hx]]
      obtain ⟨m, hm, hma, hmem, hall⟩ := ih x
      refine ⟨m, hm, le_trans hma hx.le, Or.inr ?_, ?_⟩
      · rcases hmem with rfl | hmem
        · exact List.mem_cons_self _ _
        · exact List.mem_cons_of_mem _ hmem
      · intro y hy
        rcases List.mem_cons.mp hy with rfl | hy
        · exact hma
        · exact hall y hy
    · rw [show minStep (some a) x = some a by simp [minStep, hx]]
      obtain ⟨m, hm, hma, hmem, hall⟩ := ih a
      refine ⟨m, hm, hma, ?_, ?_⟩
      · rcases hmem with rfl | hmem
        · exact Or.inl rfl
        · exact Or.inr (List.mem_cons_of_mem _ hmem)
      · intro y hy
        rcases List.mem_cons.mp hy with rfl | hy
        · exact le_trans hma (not_lt.mp hx)
        · exact hall y hy

lemma negMax_foldl_none (l : List ℚ) (h : ∀ x ∈ l, 0 ≤ x) : l.foldl negMaxStep none = none := by
  induction l with
  | nil => rfl
  | cons x xs ih =>
    simp only [List.foldl_cons]
    rw [show negMaxStep none x = none by
      simp [negMaxStep, not_lt.mpr (h x (List.mem_cons_self _ _))]]
    exact ih fun y hy => h y (List.mem_cons_of_mem _ hy)

lemma negMax_foldl_inv (l : List ℚ) (a : ℚ) (ha : a < 0) :
    ∃ M, l.foldl negMaxStep (some a) = some M ∧ M < 0 ∧ a ≤ M ∧ (M = a ∨ M ∈ l) ∧
      ∀ x ∈ l, x < 0 → x ≤ M := by
  induction l generalizing a with
  | nil => exact ⟨a, rfl, ha, le_rfl, Or.inl rfl, by simp⟩
  | cons x xs ih =>
    simp only [List.foldl_cons]
    by_cases hx : a < x ∧ x < 0
    · rw [show negMaxStep (some a) x = some x by simp [negMaxStep, hx]]
      obtain ⟨M, hM, hMneg, haM, hmem, hall⟩ := ih x hx.2
      refine ⟨M, hM, hMneg, le_trans hx.1.le haM, Or.inr ?_, ?_⟩
      · rcases hmem with rfl | hmem
        · exact List.mem_cons_self _ _
        · exact List.mem_cons_of_mem _ hmem
      · intro y hy hyneg
        rcases List.mem_cons.mp hy with rfl | hy
        · exact haM
        · exact hall y hy hyneg
    · rw [show negMaxStep (some a) x = some a by simp [negMaxStep, hx]]
      obtain ⟨M, hM, hMneg, haM, hmem, hall⟩ := ih a ha
      refine ⟨M, hM, hMneg, haM, ?_, ?_⟩
      · rcases hmem with rfl | hmem
        · exact Or.inl rfl
        · exact Or.inr (List.mem_cons_of_mem _ hmem)
      · intro y hy hyneg
        rcases List.mem_cons.mp hy with rfl | hy
        · have : ¬ a < y := fun hlt => hx ⟨hlt, hyneg⟩
          exact le_trans (not_lt.mp this) haM
        · exact hall y hy hyneg

lemma negMax_foldl_some (l : List ℚ) (y : ℚ) (hy : y ∈ l) (hyneg : y < 0) :
    ∃ M, l.foldl negMaxStep none = some M ∧ M ∈ l ∧ M < 0 ∧ ∀ x ∈ l, x < 0 → x ≤ M := by
  induction l with
  | nil => simp at hy
  | cons x xs ih =>
    simp only [List.foldl_cons]
    by_cases hx : x < 0
    · rw [show negMaxStep none x = some x by simp [negMaxStep, hx]]
      obtain ⟨M, hM, hMneg, hxM, hmem, hall⟩ := negMax_foldl_inv xs x hx
      refine ⟨M, hM, ?_, hMneg, ?_⟩
      · rcases hmem with rfl | hmem
        · exact List.mem_cons_self _ _
        · exact List.mem_cons_of_mem _ hmem
      · intro z hz hzneg
        rcases List.mem_cons.mp hz with rfl | hz
        · exact hxM
        · exact hall z hz hzneg
    · rw [show negMaxStep none x = none by simp [negMaxStep, hx]]
      have hy' : y ∈ xs := by
        rcases List.mem_cons.mp hy with rfl | hy'
        · exact absurd hyneg hx
        · exact hy'
      obtain ⟨M, hM, hmem, hMneg, hall⟩ := ih hy'
      refine ⟨M, hM, List.mem_cons_of_mem _ hmem, hMneg, ?_⟩
      intro z hz hzneg
      rcases List.mem_cons.mp hz with rfl | hz
      · exact absurd hzneg hx
      · exact hall z hz hzneg

/-- Reading an in-range index of a mapped range gives the function value. -/
lemma getD_map_range (f : ℕ → ℚ) (n i : ℕ) (h : i < n) :
    ((List.range n).map f).getD i 0 = f i := by
  rw [List.getD_eq_getElem?_getD, List.getElem?_map, List.getElem?_range h]
  rfl

lemma rampData_length : rampData.length = 52 := by simp [rampData]

lemma rampData_getD (k : ℕ) (h : k < 52) : rampData.getD k 0 = -(61 / 20 : ℚ) * k := by
  unfold rampData
  exact getD_map_range _ _ _ h

/-! ### Helper lemma for the artifact-detector slope sum -/

lemma sum_Ico_sub_telescope (f : ℕ → ℚ) (c : ℕ) :
    ∀ w : ℕ, 1 ≤ w →
      ∑ i ∈ Finset.Ico 1 w, (f (c + i) - f (c + i - 1)) = f (c + w - 1) - f c := by
  intro w
  induction w with
  | zero => omega
  | succ n ih =>
    intro _
    by_cases hn : 1 ≤ n
    · rw [Finset.sum_Ico_succ_top hn, ih hn]
      have h1 : c + n - 1 = c + (n - 1) := by omega
      have h2 : c + (n + 1) - 1 = c + n := by omega
      rw [h2]
      ring
    · have : n = 0 := by omega
      subst this
      simp


/-! ### C4: dynamic range -/

/-- C4 counterexample: on the spectrum [5] no magnitude is negative, so
the max accumulator keeps its -Infinity sentinel and Math.abs(max - min)
is Infinity (modelled none): the code does not produce the finite value
0 - 5 = -5 that the claim text prescribes. -/
theorem calculateDynamicRange_counterexample :
    calculateDynamicRange [(5 : ℚ)] = none ∧ dynamicRangeClaimed [(5 : ℚ)] = some (-5) := by
  constructor
  · rfl
  · show some ((0 : ℚ) - 5) = some (-5)
    norm_num

/-- C4 (amended): whenever the spectrum contains a negative magnitude,
calculateDynamicRange returns the greatest negative magnitude minus the
overall minimum; whenever it contains none, the result is not finite
(none, that is, Infinity in the JavaScript code). -/
theorem calculateDynamicRange_spec (data : List ℚ) :
    (∀ M m : ℚ, M ∈ data → M < 0 → (∀ x ∈ data, x < 0 → x ≤ M) →
        m ∈ data → (∀ x ∈ data, m ≤ x) →
        calculateDynamicRange data = some (M - m)) ∧
    ((∀ x ∈ data, 0 ≤ x) → calculateDynamicRange data = none) := by
  constructor
  · intro M m hM hMneg hMmax hm hmmin
    obtain ⟨M', hfoldM, hM'mem, hM'neg, hM'max⟩ := negMax_foldl_some data M hM hMneg
    have hMM : M' = M := le_antisymm (hMmax M' hM'mem hM'neg) (hM'max M hM hMneg)
    cases data with
    | nil => simp at hM
    | cons d ds =>
      have hfold0 : (d :: ds).foldl minStep none = ds.foldl minStep (some d) := rfl
      obtain ⟨m', hfoldm, hm'd, hm'mem, hm'all⟩ := minStep_foldl ds d
      have hm'data : m' ∈ d :: ds := by
        rcases hm'mem with rfl | hmem
        · exact List.mem_cons_self _ _
        · exact List.mem_cons_of_mem _ hmem
      have hm'min : ∀ x ∈ d :: ds, m' ≤ x := by
        intro x hx
        rcases List.mem_cons.mp hx with rfl | hx
        · exact hm'd
        · exact hm'all x hx
      have hmm : m' = m := le_antisymm (hm'min m hm) (hmmin m' hm'data)
      unfold calculateDynamicRange
      rw [hfoldM, hfold0, hfoldm, hMM, hmm]
      exact congrArg some (abs_of_nonneg (sub_nonneg.mpr (hmmin M hM)))
  · intro h
    have h0 := negMax_foldl_none data h
    unfold calculateDynamicRange
    rw [h0]

/-- C4 witness: on [-5, 2, -1] the greatest negative magnitude is -1 and
the minimum is -5, and the code returns their difference. -/
theorem calculateDynamicRange_spec_witness :
    calculateDynamicRange [(-5 : ℚ), 2, -1] = some ((-1) - (-5)) :=
  (calculateDynamicRange_spec [(-5 : ℚ), 2, -1]).1 (-1) (-5) (by decide) (by norm_num)
    (by decide) (by decide) (by decide)

/-! ### C5: artificial-cutoff detection -/

/-- C5 counterexample: on a spectrum falling uniformly by 3.05 dB per bin
the average per-bin slope over the 50 bins following cutoff bin 0 is
-3.05, steeper than -3, yet detectArtificialCutoff returns false,
because the code sums only the 49 differences inside the window and
still divides by 50. -/
theorem detectArtificialCutoff_counterexample :
    avgSlopeClaim rampData 0 < -3 ∧ detectArtificialCutoff rampData 0 = false := by
  constructor
  · simp only [avgSlopeClaim, rampData_length]
    rw [show min 50 (52 - 0 - 1) = 50 from by omega]
    rw [← Nat.Ico_succ_right]
    rw [sum_Ico_sub_telescope (fun k => rampData.getD k 0) 0 51 (by omega)]
    rw [show (0 + 51 - 1 : ℕ) = 50 from rfl]
    rw [rampData_getD 50 (by omega), rampData_getD 0 (by omega)]
    norm_num
  · simp only [detectArtificialCutoff, rampData_length]
    rw [show min 50 (52 - 0 - 1) = 50 from by omega]
    rw [if_neg (by omega)]
    rw [sum_Ico_sub_telescope (fun k => rampData.getD k 0) 0 50 (by omega)]
    rw [show (0 + 50 - 1 : ℕ) = 49 from rfl]
    rw [rampData_getD 49 (by omega), rampData_getD 0 (by omega)]
    rw [decide_eq_false_iff_not]
    norm_num

/-- C5 (amended): detectArtificialCutoff returns false when fewer than 10
bins follow the cutoff bin; otherwise it returns true exactly when the
total descent across the window, data[cutoff + w - 1] - data[cutoff],
divided by w = min(50, bins remaining), is below -3 dB per bin (this is
the average of the w - 1 slopes inside the window scaled by
(w - 1) / w, not the average slope over the w following bins). -/
theorem detectArtificialCutoff_spec (data : List ℚ) (cutoffBin : ℕ) :
    (data.length - cutoffBin - 1 < 10 → detectArtificialCutoff data cutoffBin = false) ∧
    (10 ≤ min 50 (data.length - cutoffBin - 1) →
      (detectArtificialCutoff data cutoffBin = true ↔
        (data.getD (cutoffBin + min 50 (data.length - cutoffBin - 1) - 1) 0 -
            data.getD cutoffBin 0) /
          ((min 50 (data.length - cutoffBin - 1) : ℕ) : ℚ) < -3)) := by
  constructor
  · intro h
    unfold detectArtificialCutoff
    rw [if_pos (by omega)]
  · intro h
    unfold detectArtificialCutoff
    rw [if_neg (by omega)]
    rw [sum_Ico_sub_telescope (fun k => data.getD k 0) cutoffBin
      (min 50 (data.length - cutoffBin - 1)) (by omega)]
    exact decide_eq_true_iff

/-- C5 witness: on the uniform ramp with cutoff bin 0 the window is 50
and the implemented test compares the scaled descent with -3. -/
theorem detectArtificialCutoff_spec_witness :
    detectArtificialCutoff rampData 0 = true ↔
      (rampData.getD (0 + min 50 (rampData.length - 0 - 1) - 1) 0 - rampData.getD 0 0) /
        ((min 50 (rampData.length - 0 - 1) : ℕ) : ℚ) < -3 :=
  (detectArtificialCutoff_spec rampData 0).2 (by decide)

/-! ### C3: clamping of qualityScore and confidence -/

lemma jsRound_eq (q : ℚ) (n : ℤ) (h1 : (n : ℚ) ≤ q + 1/2) (h2 : q + 1/2 < n + 1) :
    jsRound q = n :=
  Int.floor_eq_iff.mpr ⟨h1, by exact_mod_cast h2⟩

lemma jsRound_bounds {x : ℚ} (h0 : 0 ≤ x) (h1 : x ≤ 100) :
    0 ≤ jsRound x ∧ jsRound x ≤ 100 := by
  unfold jsRound
  constructor
  · exact Int.floor_nonneg.mpr (by linarith)
  · have h3 : ⌊x + 1/2⌋ ≤ ⌊(100 + 1/2 : ℚ)⌋ := Int.floor_le_floor (by linarith)
    have h4 : ⌊(100 + 1/2 : ℚ)⌋ = 100 := Int.floor_eq_iff.mpr ⟨by norm_num, by norm_num⟩
    omega

/-- C3: for every feature combination the quality score is an integer in
0 .. 100, and for every spectrum and cutoff the confidence is an integer
in 0 .. 100 (integrality is carried by the type). -/
theorem qualityScore_confidence_clamped :
    (∀ (analysis : AnalysisFeatures) (sampleRate : ℚ),
        0 ≤ (evaluateQuality analysis sampleRate).qualityScore ∧
          (evaluateQuality analysis sampleRate).qualityScore ≤ 100) ∧
    (∀ (data : List ℚ) (cutoff : Cutoff),
        0 ≤ calculateConfidence data cutoff ∧ calculateConfidence data cutoff ≤ 100) := by
  constructor
  · intro analysis sampleRate
    simp only [evaluateQuality]
    exact jsRound_bounds (le_min (by norm_num) (le_max_left 0 _)) (min_le_left _ _)
  · intro data cutoff
    simp only [calculateConfidence]
    exact ⟨le_min (by norm_num) (le_max_left 0 _), min_le_left _ _⟩

/-! ### C2: the Lossless tier -/

lemma clamp_round_100_of_le (x : ℚ) (hx : 100 ≤ x) :
    jsRound (min 100 (max 0 x)) = 100 := by
  rw [max_eq_right (by linarith), min_eq_left hx]
  exact jsRound_eq _ _ (by norm_num) (by norm_num)

/-- C2 counterexample: with cutoff exactly 20000 Hz but an artificial
rolloff and no bonus features, the -15 adjustment lowers the score to
85, so the score is not 100 regardless of the other features (the label
is still Lossless). -/
theorem evaluateQuality_lossless_counterexample :
    (evaluateQuality ⟨⟨20000, 0, true, -80⟩, 0, 0, 0, 0⟩ 44100).qualityScore = 85 ∧
      (evaluateQuality ⟨⟨20000, 0, true, -80⟩, 0, 0, 0, 0⟩ 44100).qualityScore ≠ 100 := by
  have h : (evaluateQuality ⟨⟨20000, 0, true, -80⟩, 0, 0, 0, 0⟩ 44100).qualityScore = 85 := by
    simp only [evaluateQuality, baseQualityScore]
    norm_num
    exact jsRound_eq _ _ (by norm_num) (by norm_num)
  exact ⟨h, by rw [h]; decide⟩

/-- C2 (amended): for cutoff frequency exactly 20000 Hz the tier label is
Lossless regardless of the other features, and the quality score is 100
whenever the cutoff is not flagged artificial; an artificial cutoff can
lower the score below 100 through the -15 adjustment. -/
theorem evaluateQuality_lossless (analysis : AnalysisFeatures) (sampleRate : ℚ)
    (h : analysis.cutoff.frequency = 20000) :
    (evaluateQuality analysis sampleRate).qualityLabel = "Lossless" ∧
      (analysis.cutoff.isArtificial = false →
        (evaluateQuality analysis sampleRate).qualityScore = 100) := by
  have hbase : baseQualityScore analysis.cutoff.frequency = 100 := by
    rw [h]; unfold baseQualityScore; rw [if_pos (by norm_num)]
  constructor
  · simp only [evaluateQuality, qualityLabelOf, h]
    rw [if_pos (by norm_num)]
  · intro hart
    simp only [evaluateQuality, hart, hbase, Bool.false_eq_true, if_false]
    split_ifs <;> exact clamp_round_100_of_le _ (by norm_num)

/-- C2 witness: a non-artificial 20000 Hz cutoff with bonus features
still scores exactly 100 and is labelled Lossless. -/
theorem evaluateQuality_lossless_witness :
    (evaluateQuality ⟨⟨20000, 3, false, -80⟩, 60, 10, 1/2, 90⟩ 44100).qualityLabel =
        "Lossless" ∧
      (evaluateQuality ⟨⟨20000, 3, false, -80⟩, 60, 10, 1/2, 90⟩ 44100).qualityScore = 100 :=
  ⟨(evaluateQuality_lossless ⟨⟨20000, 3, false, -80⟩, 60, 10, 1/2, 90⟩ 44100 rfl).1,
    (evaluateQuality_lossless ⟨⟨20000, 3, false, -80⟩, 60, 10, 1/2, 90⟩ 44100 rfl).2 rfl⟩

/-! ### C10: tier score monotonicity and boundary agreement -/

lemma baseQualityScore_le_100 (f : ℚ) : baseQualityScore f ≤ 100 := by
  unfold baseQualityScore
  split_ifs with h1 h2 h3 h4
  · exact le_refl 100
  · linarith [not_le.mp h1]
  · linarith [not_le.mp h2]
  · linarith [not_le.mp h2]
  · exact max_le (by norm_num) (by linarith [not_le.mp h4])

lemma baseQualityScore_le_85 (f : ℚ) (h : f < 18500) : baseQualityScore f ≤ 85 := by
  unfold baseQualityScore
  split_ifs with h1 h2 h3 h4
  · linarith
  · linarith
  · linarith
  · linarith
  · exact max_le (by norm_num) (by linarith)

lemma baseQualityScore_le_60 (f : ℚ) (h : f < 16000) : baseQualityScore f ≤ 60 := by
  unfold baseQualityScore
  split_ifs with h1 h2 h3 h4
  · linarith
  · linarith
  · linarith
  · linarith
  · exact max_le (by norm_num) (by linarith)

lemma baseQualityScore_le_30 (f : ℚ) (h : f < 14000) : baseQualityScore f ≤ 30 := by
  unfold baseQualityScore
  split_ifs with h1 h2 h3 h4
  · linarith
  · linarith
  · linarith
  · linarith
  · exact max_le (by norm_num) (by linarith)

lemma baseQualityScore_monotone {f₁ f₂ : ℚ} (h12 : f₁ ≤ f₂) :
    baseQualityScore f₁ ≤ baseQualityScore f₂ := by
  by_cases c1 : 20000 ≤ f₂
  · have h2 : baseQualityScore f₂ = 100 := by unfold baseQualityScore; rw [if_pos c1]
    rw [h2]
    exact baseQualityScore_le_100 f₁
  · by_cases c2 : 18500 ≤ f₂
    · have h2 : baseQualityScore f₂ = 85 + (f₂ - 18500) / 1500 * 15 := by
        unfold baseQualityScore; rw [if_neg c1, if_pos c2]
      by_cases d : 18500 ≤ f₁
      · have h1 : baseQualityScore f₁ = 85 + (f₁ - 18500) / 1500 * 15 := by
          unfold baseQualityScore; rw [if_neg (by linarith), if_pos d]
        rw [h1, h2]; linarith
      · rw [h2]
        linarith [baseQualityScore_le_85 f₁ (not_le.mp d)]
    · by_cases c3 : 16000 ≤ f₂
      · have h2 : baseQualityScore f₂ = 60 + (f₂ - 16000) / 2500 * 25 := by
          unfold baseQualityScore; rw [if_neg c1, if_neg c2, if_pos c3]
        by_cases d : 16000 ≤ f₁
        · have h1 : baseQualityScore f₁ = 60 + (f₁ - 16000) / 2500 * 25 := by
            unfold baseQualityScore
            rw [if_neg (by linarith), if_neg (by linarith [not_le.mp c2]), if_pos d]
          rw [h1, h2]; linarith
        · rw [h2]
          linarith [baseQualityScore_le_60 f₁ (not_le.mp d)]
      · by_cases c4 : 14000 ≤ f₂
        · have h2 : baseQualityScore f₂ = 30 + (f₂ - 14000) / 2000 * 30 := by
            unfold baseQualityScore; rw [if_neg c1, if_neg c2, if_neg c3, if_pos c4]
          by_cases d : 14000 ≤ f₁
          · have h1 : baseQualityScore f₁ = 30 + (f₁ - 14000) / 2000 * 30 := by
              unfold baseQualityScore
              rw [if_neg (by linarith), if_neg (by linarith [not_le.mp c2]),
                if_neg (by linarith [not_le.mp c3]), if_pos d]
            rw [h1, h2]; linarith
          · rw [h2]
            linarith [baseQualityScore_le_30 f₁ (not_le.mp d)]
        · have h2 : baseQualityScore f₂ = max 10 (f₂ / 14000 * 30) := by
            unfold baseQualityScore; rw [if_neg c1, if_neg c2, if_neg c3, if_neg c4]
          have h1 : baseQualityScore f₁ = max 10 (f₁ / 14000 * 30) := by
            unfold baseQualityScore
            rw [if_neg (by linarith), if_neg (by linarith [not_le.mp c2]),
              if_neg (by linarith [not_le.mp c3]), if_neg (by linarith [not_le.mp c4])]
          rw [h1, h2]
          exact max_le_max le_rfl (by linarith)

/-- C10: the base tier score is monotone non-decreasing in the cutoff
frequency, and the tier formulas agree at every tier boundary, where the
dispatch takes the values 30, 60, 85 and 100 that the formula of the
tier below also yields at the boundary. -/
theorem baseQualityScore_tiers :
    (∀ f₁ f₂ : ℚ, 0 ≤ f₁ → f₁ ≤ f₂ → baseQualityScore f₁ ≤ baseQualityScore f₂) ∧
    baseQualityScore 14000 = 30 ∧ baseQualityScore 16000 = 60 ∧
    baseQualityScore 18500 = 85 ∧ baseQualityScore 20000 = 100 ∧
    max 10 ((14000 : ℚ) / 14000 * 30) = 30 ∧
    30 + ((16000 : ℚ) - 14000) / 2000 * 30 = 60 ∧
    60 + ((18500 : ℚ) - 16000) / 2500 * 25 = 85 ∧
    85 + ((20000 : ℚ) - 18500) / 1500 * 15 = 100 := by
  refine ⟨fun f₁ f₂ _ h => baseQualityScore_monotone h, ?_, ?_, ?_, ?_, ?_, ?_, ?_, ?_⟩ <;>
    norm_num [baseQualityScore]

/-- C10 witness: monotonicity applied to the concrete pair 15000 and
17000 Hz. -/
theorem baseQualityScore_tiers_witness :
    baseQualityScore 15000 ≤ baseQualityScore 17000 :=
  baseQualityScore_tiers.1 15000 17000 (by norm_num) (by norm_num)

/-! ### C1: cutoff detection -/

lemma smoothArray_length (data : List ℚ) (w : ℕ) :
    (smoothArray data w).length = data.length := by
  simp [smoothArray]

lemma smoothArray_getD (data : List ℚ) (w : ℕ) (i : ℕ) (h : i < data.length) :
    (smoothArray data w).getD i 0 =
      (∑ j ∈ Finset.Icc (i - w) (min (data.length - 1) (i + w)), data.getD j 0) /
        ((min (data.length - 1) (i + w) + 1 - (i - w) : ℕ) : ℚ) := by
  unfold smoothArray
  exact getD_map_range _ _ _ h

lemma lastBin_eq_zero (p : ℕ → Prop) [DecidablePred p] (n : ℕ) (h : ∀ i < n, ¬ p i) :
    (List.range n).foldl (fun acc i => if p i then i else acc) 0 = 0 := by
  induction n with
  | zero => rfl
  | succ n ih =>
    rw [List.range_succ, List.foldl_append, List.foldl_cons, List.foldl_nil]
    rw [if_neg (h n (by omega))]
    exact ih fun i hi => h i (by omega)

lemma lastBin_max (p : ℕ → Prop) [DecidablePred p] (n : ℕ) (h : ∃ i, i < n ∧ p i) :
    p ((List.range n).foldl (fun acc i => if p i then i else acc) 0) ∧
    (List.range n).foldl (fun acc i => if p i then i else acc) 0 < n ∧
    ∀ j, (List.range n).foldl (fun acc i => if p i then i else acc) 0 < j → j < n → ¬ p j := by
  induction n with
  | zero =>
    obtain ⟨i, hi, _⟩ := h
    omega
  | succ n ih =>
    rw [List.range_succ, List.foldl_append, List.foldl_cons, List.foldl_nil]
    by_cases hn : p n
    · rw [if_pos hn]
      exact ⟨hn, by omega, fun j hj1 hj2 => by omega⟩
    · rw [if_neg hn]
      have h' : ∃ i, i < n ∧ p i := by
        obtain ⟨i, hi, hp⟩ := h
        rcases Nat.lt_succ_iff_lt_or_eq.mp hi with hlt | rfl
        · exact ⟨i, hlt, hp⟩
        · exact absurd hp hn
      obtain ⟨ih1, ih2, ih3⟩ := ih h'
      refine ⟨ih1, by omega, ?_⟩
      intro j hj1 hj2
      rcases Nat.lt_succ_iff_lt_or_eq.mp hj2 with hlt | rfl
      · exact ih3 j hj1 hlt
      · exact hn

lemma smoothed_all_lt (data : List ℚ) (w : ℕ) (b : ℚ)
    (hall : ∀ i, i < data.length → data.getD i 0 < b) :
    ∀ i, i < data.length → (smoothArray data w).getD i 0 < b := by
  intro i hi
  rw [smoothArray_getD data w i hi]
  have hmin : min (data.length - 1) (i + w) ≤ data.length - 1 := min_le_left _ _
  have h2 : i ≤ min (data.length - 1) (i + w) := le_min (by omega) (by omega)
  have hcnt : 0 < min (data.length - 1) (i + w) + 1 - (i - w) := by omega
  have hsum : (∑ j ∈ Finset.Icc (i - w) (min (data.length - 1) (i + w)), data.getD j 0) <
      ((min (data.length - 1) (i + w) + 1 - (i - w) : ℕ) : ℚ) * b := by
    calc (∑ j ∈ Finset.Icc (i - w) (min (data.length - 1) (i + w)), data.getD j 0)
        < ∑ _j ∈ Finset.Icc (i - w) (min (data.length - 1) (i + w)), b := by
          apply Finset.sum_lt_sum_of_nonempty (Finset.nonempty_Icc.mpr (by omega))
          intro j hj
          have hj2 : j ≤ min (data.length - 1) (i + w) := (Finset.mem_Icc.mp hj).2
          exact hall j (by omega)
      _ = ((min (data.length - 1) (i + w) + 1 - (i - w) : ℕ) : ℚ) * b := by
          rw [Finset.sum_const, Nat.card_Icc]
          simp [nsmul_eq_mul]
  rw [div_lt_iff₀ (by exact_mod_cast hcnt)]
  linarith

/-- C1: the cutoff bin is the highest-index bin whose smoothed magnitude
strictly exceeds the -80 dB threshold, and when every raw bin is below
-80 dB both the cutoff bin and the cutoff frequency are 0. -/
theorem findCutoffFrequency_spec (data : List ℚ) (hlen : 2 ≤ data.length) :
    ((∃ i, i < data.length ∧ (-80 : ℚ) < (smoothArray data 3).getD i 0) →
        (findCutoffFrequency data).bin < data.length ∧
        (-80 : ℚ) < (smoothArray data 3).getD (findCutoffFrequency data).bin 0 ∧
        ∀ j, (findCutoffFrequency data).bin < j → j < data.length →
          (smoothArray data 3).getD j 0 ≤ -80) ∧
    ((∀ i, i < data.length → data.getD i 0 < -80) →
        (findCutoffFrequency data).bin = 0 ∧ (findCutoffFrequency data).frequency = 0) := by
  have hbin : (findCutoffFrequency data).bin =
      (List.range data.length).foldl
        (fun acc i => if (-80 : ℚ) < (smoothArray data 3).getD i 0 then i else acc) 0 := by
    simp only [findCutoffFrequency, smoothArray_length]
  constructor
  · intro hex
    obtain ⟨h1, h2, h3⟩ :=
      lastBin_max (fun i => (-80 : ℚ) < (smoothArray data 3).getD i 0) data.length
        (by exact hex)
    rw [hbin]
    exact ⟨h2, h1, fun j hj1 hj2 => not_lt.mp (h3 j hj1 hj2)⟩
  · intro hall
    have hns : ∀ i < data.length, ¬ ((-80 : ℚ) < (smoothArray data 3).getD i 0) :=
      fun i hi => not_lt.mpr (le_of_lt (smoothed_all_lt data 3 (-80) hall i hi))
    have hz : (List.range data.length).foldl
        (fun acc i => if (-80 : ℚ) < (smoothArray data 3).getD i 0 then i else acc) 0 = 0 :=
      lastBin_eq_zero _ data.length hns
    refine ⟨by rw [hbin]; exact hz, ?_⟩
    show (findCutoffFrequency data).frequency = 0
    simp only [findCutoffFrequency, smoothArray_length]
    rw [hz]
    rw [show (((0 : ℕ) : ℚ) / ((data.length : ℚ) - 1) * (44100 / 2) : ℚ) = 0 by
      push_cast; ring]
    rw [jsRound_eq 0 0 (by norm_num) (by norm_num)]
    norm_num

/-- C1 witness: a four-bin spectrum entirely below -80 dB yields cutoff
bin 0 and cutoff frequency 0. -/
theorem findCutoffFrequency_spec_witness :
    (findCutoffFrequency [(-90 : ℚ), -90, -90, -90]).bin = 0 ∧
      (findCutoffFrequency [(-90 : ℚ), -90, -90, -90]).frequency = 0 :=
  (findCutoffFrequency_spec [(-90 : ℚ), -90, -90, -90] (by decide)).2 (by decide)

/-! ### C6: spectral peaks -/

lemma peakPredicate_iff (data : List ℚ) (i : ℕ) :
    peakPredicate data i = true ↔ SpecIsPeak data i := by
  unfold peakPredicate SpecIsPeak
  simp only [Bool.and_eq_true, decide_eq_true_eq, List.all_eq_true, List.mem_range,
    Finset.mem_Icc]
  constructor
  · rintro ⟨⟨⟨h1, h2⟩, h3⟩, h4⟩
    refine ⟨h1, h2, h4, ?_⟩
    intro j hj
    have h5 := h3 (j - 1) (by omega)
    rw [show j - 1 + 1 = j by omega] at h5
    exact h5
  · rintro ⟨h1, h2, h4, h3⟩
    exact ⟨⟨⟨h1, h2⟩, fun j hj => h3 (j + 1) ⟨by omega, by omega⟩⟩, h4⟩

/-- C6: the peak list consists of exactly the first 10 indices, in
ascending order, whose magnitude strictly exceeds every bin within a
5-bin radius on both sides and exceeds -70 dB; each returned record
carries the magnitude and frequency of its bin. -/
theorem findSpectralPeaks_spec (data : List ℚ) :
    ((findSpectralPeaks data).map (fun p => p.bin)) =
      (((List.range data.length).filter (fun i => decide (SpecIsPeak data i))).take 10) ∧
    List.Sorted (· < ·) ((findSpectralPeaks data).map (fun p => p.bin)) ∧
    ∀ p ∈ findSpectralPeaks data,
      SpecIsPeak data p.bin ∧ p.magnitude = data.getD p.bin 0 ∧
        p.frequency = (p.bin : ℚ) / ((data.length : ℚ) - 1) * (44100 / 2) := by
  have hfilter : (List.range data.length).filter (peakPredicate data) =
      (List.range data.length).filter (fun i => decide (SpecIsPeak data i)) := by
    apply List.filter_congr
    intro i _
    by_cases hs : SpecIsPeak data i
    · simp [(peakPredicate_iff data i).mpr hs, hs]
    · have hb : peakPredicate data i = false := by
        cases hb : peakPredicate data i
        · rfl
        · exact absurd ((peakPredicate_iff data i).mp hb) hs
      simp [hb, hs]
  have hmap : (findSpectralPeaks data).map (fun p => p.bin) =
      (((List.range data.length).filter (fun i => decide (SpecIsPeak data i))).take 10) := by
    unfold findSpectralPeaks
    rw [hfilter, List.map_take, List.map_map]
    rw [show ((fun p : Peak => p.bin) ∘ fun i =>
        ({ bin := i, frequency := (i : ℚ) / ((data.length : ℚ) - 1) * (44100 / 2),
           magnitude := data.getD i 0 } : Peak)) = id from rfl]
    rw [List.map_id]
  refine ⟨hmap, ?_, ?_⟩
  · rw [hmap]
    exact List.Pairwise.sublist
      ((List.take_sublist _ _).trans (List.filter_sublist _))
      (List.pairwise_lt_range data.length)
  · intro p hp
    unfold findSpectralPeaks at hp
    have hp2 := List.mem_of_mem_take hp
    obtain ⟨i, hi, rfl⟩ := List.mem_map.mp hp2
    have hpred : peakPredicate data i = true := List.of_mem_filter hi
    exact ⟨(peakPredicate_iff data i).mp hpred, rfl, rfl⟩

/-- C6 witness: the bin characterization instantiated on a concrete
13-bin spectrum with a single peak at bin 6. -/
theorem findSpectralPeaks_spec_witness :
    ((findSpectralPeaks
        [(-60 : ℚ), -60, -60, -60, -60, -60, -10, -60, -60, -60, -60, -60, -60]).map
      (fun p => p.bin)) =
      (((List.range
          ([(-60 : ℚ), -60, -60, -60, -60, -60, -10, -60, -60, -60, -60, -60, -60]).length).filter
        (fun i => decide (SpecIsPeak
          [(-60 : ℚ), -60, -60, -60, -60, -60, -10, -60, -60, -60, -60, -60, -60] i))).take 10) :=
  (findSpectralPeaks_spec
    [(-60 : ℚ), -60, -60, -60, -60, -60, -10, -60, -60, -60, -60, -60, -60]).1

/-! ### C7: spectral flatness -/

lemma linPower_pos (x : ℚ) : 0 < linPower x :=
  Real.rpow_pos_of_pos (by norm_num) _

/-- C7: spectral flatness of a nonempty spectrum lies in (0, 1], and a
perfectly flat spectrum has spectral flatness exactly 1. -/
theorem calculateSpectralFlatness_spec (data : List ℚ) (h : 0 < data.length) :
    0 < calculateSpectralFlatness data ∧ calculateSpectralFlatness data ≤ 1 ∧
      ∀ c : ℚ, (∀ x ∈ data, x = c) → calculateSpectralFlatness data = 1 := by
  set n := data.length with hn
  have hne : (Finset.range n).Nonempty := ⟨0, Finset.mem_range.mpr h⟩
  have hnne : ((n : ℝ)) ≠ 0 := Nat.cast_ne_zero.mpr (by omega)
  have hnpos : (0 : ℝ) < n := by exact_mod_cast h
  set z : ℕ → ℝ := fun i => linPower (data.getD i 0) with hz
  have hzpos : ∀ i, 0 < z i := fun i => linPower_pos _
  have hG : calculateSpectralFlatness data =
      Real.exp ((∑ i ∈ Finset.range n, Real.log (z i)) / n) /
        ((∑ i ∈ Finset.range n, z i) / n) := rfl
  have hGprod : Real.exp ((∑ i ∈ Finset.range n, Real.log (z i)) / n) =
      ∏ i ∈ Finset.range n, z i ^ ((n : ℝ)⁻¹) := by
    rw [div_eq_mul_inv, Finset.sum_mul, Real.exp_sum]
    apply Finset.prod_congr rfl
    intro i _
    rw [Real.rpow_def_of_pos (hzpos i)]
  have hamgm : (∏ i ∈ Finset.range n, z i ^ ((n : ℝ)⁻¹)) ≤
      ∑ i ∈ Finset.range n, (n : ℝ)⁻¹ * z i := by
    apply Real.geom_mean_le_arith_mean_weighted
    · intro i _
      positivity
    · rw [Finset.sum_const, Finset.card_range, nsmul_eq_mul, mul_inv_cancel₀ hnne]
    · intro i _
      exact (hzpos i).le
  have hsum : (∑ i ∈ Finset.range n, (n : ℝ)⁻¹ * z i) = (∑ i ∈ Finset.range n, z i) / n := by
    rw [div_eq_mul_inv, mul_comm (∑ i ∈ Finset.range n, z i) ((n : ℝ)⁻¹), Finset.mul_sum]
  have hA : 0 < (∑ i ∈ Finset.range n, z i) / n :=
    div_pos (Finset.sum_pos (fun i _ => hzpos i) hne) hnpos
  have hle : Real.exp ((∑ i ∈ Finset.range n, Real.log (z i)) / n) ≤
      (∑ i ∈ Finset.range n, z i) / n := by
    rw [hGprod]
    rw [hsum] at hamgm
    exact hamgm
  refine ⟨?_, ?_, ?_⟩
  · rw [hG]
    exact div_pos (Real.exp_pos _) hA
  · rw [hG]
    exact (div_le_one hA).mpr hle
  · intro c hc
    have hgd : ∀ i ∈ Finset.range n, data.getD i 0 = c := by
      intro i hi
      have hi' : i < data.length := Finset.mem_range.mp hi
      have : data.getD i 0 = data[i] := by
        rw [List.getD_eq_getElem?_getD, List.getElem?_eq_getElem hi']
        rfl
      rw [this]
      exact hc _ (List.getElem_mem hi')
    have hzc : ∀ i ∈ Finset.range n, z i = linPower c := by
      intro i hi
      show linPower (data.getD i 0) = linPower c
      rw [hgd i hi]
    have hlog : (∑ i ∈ Finset.range n, Real.log (z i)) = n * Real.log (linPower c) := by
      rw [Finset.sum_congr rfl (fun i hi => congrArg Real.log (hzc i hi))]
      rw [Finset.sum_const, Finset.card_range, nsmul_eq_mul]
    have hzsum : (∑ i ∈ Finset.range n, z i) = n * linPower c := by
      rw [Finset.sum_congr rfl (fun i hi => hzc i hi)]
      rw [Finset.sum_const, Finset.card_range, nsmul_eq_mul]
    rw [hG, hlog, hzsum]
    rw [mul_comm (n : ℝ) (Real.log (linPower c)), mul_div_assoc, div_self hnne, mul_one]
    rw [mul_comm (n : ℝ) (linPower c), mul_div_assoc, div_self hnne, mul_one]
    rw [Real.exp_log (linPower_pos c)]
    exact div_self (ne_of_gt (linPower_pos c))

/-- C7 witness: the flat two-bin spectrum at -10 dB has flatness 1, which
is positive and at most 1. -/
theorem calculateSpectralFlatness_spec_witness :
    0 < calculateSpectralFlatness [(-10 : ℚ), -10] ∧
      calculateSpectralFlatness [(-10 : ℚ), -10] ≤ 1 ∧
      calculateSpectralFlatness [(-10 : ℚ), -10] = 1 :=
  ⟨(calculateSpectralFlatness_spec [(-10 : ℚ), -10] (by decide)).1,
    (calculateSpectralFlatness_spec [(-10 : ℚ), -10] (by decide)).2.1,
    (calculateSpectralFlatness_spec [(-10 : ℚ), -10] (by decide)).2.2 (-10) (by decide)⟩

/-! ### Scheduler lemmas for C8 and C9 -/

lemma sum_map_add_one {α : Type} (l : List α) (g : α → ℕ) :
    (l.map (fun x => g x + 1)).sum = (l.map g).sum + l.length := by
  induction l with
  | nil => rfl
  | cons x xs ih =>
    simp only [List.map_cons, List.sum_cons, List.length_cons, ih]
    omega

lemma proc_tick_sum_le (l : List (BatchItem × ℕ)) :
    ((((l.map (fun p => (p.1, p.2 - 1))).filter (fun p => decide (p.2 ≠ 0))).map
        (fun p => p.2 + 1)).sum) + l.length ≤ (l.map (fun p => p.2 + 1)).sum := by
  induction l with
  | nil => simp
  | cons p rest ih =>
    simp only [List.map_cons, List.filter_cons]
    by_cases h0 : p.2 - 1 = 0
    · rw [if_neg (by simp [h0])]
      simp only [List.sum_cons, List.length_cons]
      omega
    · rw [if_pos (by simp [h0])]
      simp only [List.map_cons, List.sum_cons, List.length_cons]
      omega

lemma tick_terminal (limit : ℕ) (s : SchedState) (h : s.terminal) : tick limit s = s := by
  obtain ⟨h1, h2⟩ := h
  unfold tick
  rw [if_pos (by simp [h2]), if_pos (by simp [h1])]

lemma terminal_measure_zero (s : SchedState) (h : s.terminal) : schedMeasure s = 0 := by
  obtain ⟨h1, h2⟩ := h
  unfold schedMeasure
  rw [h1, h2]
  rfl

lemma measure_zero_terminal (s : SchedState) (h : schedMeasure s = 0) : s.terminal := by
  unfold schedMeasure at h
  constructor
  · cases hq : s.queue with
    | nil => rfl
    | cons x xs =>
      rw [hq] at h
      simp only [List.map_cons, List.sum_cons] at h
      omega
  · cases hp : s.processing with
    | nil => rfl
    | cons x xs =>
      rw [hp] at h
      simp only [List.map_cons, List.sum_cons] at h
      omega

lemma schedMeasure_tick (limit : ℕ) (s : SchedState) (hlim : 0 < limit)
    (hterm : ¬ s.terminal) : schedMeasure (tick limit s) < schedMeasure s := by
  unfold SchedState.terminal at hterm
  unfold tick
  by_cases hp : s.processing.isEmpty
  · rw [if_pos hp]
    have hpe : s.processing = [] := List.isEmpty_iff.mp hp
    have hq : s.queue ≠ [] := fun hq0 => hterm ⟨hq0, hpe⟩
    rw [if_neg (by simpa [List.isEmpty_iff] using hq)]
    unfold schedMeasure
    simp only [List.map_map]
    have hcomp :
        ((fun p : BatchItem × ℕ => p.2 + 1) ∘ fun it : BatchItem => (it, it.duration)) =
          fun it : BatchItem => it.duration + 1 := rfl
    rw [hcomp, hpe]
    simp only [List.map_nil, List.sum_nil, add_zero]
    conv_rhs => rw [← List.take_append_drop limit s.queue]
    rw [List.map_append, List.sum_append]
    have hfun : (fun it : BatchItem => it.duration + 2) =
        fun it : BatchItem => it.duration + 1 + 1 := by
      funext it; omega
    have h1 : ((s.queue.take limit).map (fun it => it.duration + 2)).sum =
        ((s.queue.take limit).map (fun it => it.duration + 1)).sum +
          (s.queue.take limit).length := by
      rw [hfun]
      exact sum_map_add_one _ _
    have h2 : 1 ≤ (s.queue.take limit).length := by
      rw [List.length_take]
      have h3 : 0 < s.queue.length := List.length_pos.mpr hq
      omega
    omega
  · rw [if_neg hp]
    have hne : s.processing ≠ [] := by simpa [List.isEmpty_iff] using hp
    unfold schedMeasure
    dsimp only
    have h3 := proc_tick_sum_le s.processing
    have h4 : 1 ≤ s.processing.length := List.length_pos.mpr hne
    omega

lemma run_succ_out (limit : ℕ) (s : SchedState) (n : ℕ) :
    run limit s (n + 1) = tick limit (run limit s n) := by
  induction n generalizing s with
  | zero => rfl
  | succ n ih =>
    show run limit (tick limit s) (n + 1) = tick limit (run limit (tick limit s) n)
    exact ih (tick limit s)

lemma run_preserves (limit : ℕ) (P : SchedState → Prop)
    (hP : ∀ s, P s → P (tick limit s)) :
    ∀ (n : ℕ) (s : SchedState), P s → P (run limit s n) := by
  intro n
  induction n with
  | zero => exact fun s h => h
  | succ n ih => exact fun s h => ih (tick limit s) (hP s h)

lemma run_terminal_of_measure (limit : ℕ) (hlim : 0 < limit) :
    ∀ (n : ℕ) (s : SchedState), schedMeasure s ≤ n → (run limit s n).terminal := by
  intro n
  induction n with
  | zero =>
    intro s h
    exact measure_zero_terminal s (Nat.le_zero.mp h)
  | succ n ih =>
    intro s h
    by_cases ht : s.terminal
    · show (run limit (tick limit s) n).terminal
      rw [tick_terminal limit s ht]
      exact ih s (le_trans (le_of_eq (terminal_measure_zero s ht)) (Nat.zero_le n))
    · show (run limit (tick limit s) n).terminal
      have hlt := schedMeasure_tick limit s hlim ht
      exact ih _ (by omega)

/-- Every submitted item is accounted for in the scheduler state. -/
def SchedState.tracks (items : List BatchItem) (s : SchedState) : Prop :=
  ∀ it ∈ items, it ∈ s.queue ∨ (∃ t, (it, t) ∈ s.processing) ∨ it ∈ s.done ∨ it ∈ s.failed

/-- Done items did not fail and failed items did fail: analyzeAudio puts
an item into the results map or the error state according to its own
outcome only. -/
def SchedState.flagsOK (s : SchedState) : Prop :=
  (∀ it ∈ s.done, it.fails = false) ∧ ∀ it ∈ s.failed, it.fails = true

lemma tracks_tick (limit : ℕ) (items : List BatchItem) (s : SchedState)
    (h : s.tracks items) : (tick limit s).tracks items := by
  intro it hit
  unfold tick
  by_cases hp : s.processing.isEmpty
  · by_cases hq : s.queue.isEmpty
    · rw [if_pos hp, if_pos hq]
      exact h it hit
    · rw [if_pos hp, if_neg hq]
      dsimp only
      rcases h it hit with hq1 | ⟨t, hp1⟩ | hd | hf
      · have h2 : it ∈ s.queue.take limit ++ s.queue.drop limit := by
          rw [List.take_append_drop]
          exact hq1
        rcases List.mem_append.mp h2 with ht | hd2
        · exact Or.inr (Or.inl ⟨it.duration, List.mem_map.mpr ⟨it, ht, rfl⟩⟩)
        · exact Or.inl hd2
      · rw [List.isEmpty_iff.mp hp] at hp1
        simp at hp1
      · exact Or.inr (Or.inr (Or.inl hd))
      · exact Or.inr (Or.inr (Or.inr hf))
  · rw [if_neg hp]
    dsimp only
    rcases h it hit with hq1 | ⟨t, hp1⟩ | hd | hf
    · exact Or.inl hq1
    · have hadv : (it, t - 1) ∈ s.processing.map (fun p => (p.1, p.2 - 1)) :=
        List.mem_map.mpr ⟨(it, t), hp1, rfl⟩
      by_cases h0 : t - 1 = 0
      · have hfin : it ∈ ((s.processing.map (fun p => (p.1, p.2 - 1))).filter
            (fun p => decide (p.2 = 0))).map Prod.fst :=
          List.mem_map.mpr ⟨(it, t - 1), List.mem_filter.mpr ⟨hadv, by simp [h0]⟩, rfl⟩
        cases hfl : it.fails
        · exact Or.inr (Or.inr (Or.inl
            (List.mem_append.mpr (Or.inr (List.mem_filter.mpr ⟨hfin, by simp [hfl]⟩)))))
        · exact Or.inr (Or.inr (Or.inr
            (List.mem_append.mpr (Or.inr (List.mem_filter.mpr ⟨hfin, by simp [hfl]⟩)))))
      · exact Or.inr (Or.inl ⟨t - 1, List.mem_filter.mpr ⟨hadv, by simp [h0]⟩⟩)
    · exact Or.inr (Or.inr (Or.inl (List.mem_append.mpr (Or.inl hd))))
    · exact Or.inr (Or.inr (Or.inr (List.mem_append.mpr (Or.inl hf))))

lemma flagsOK_tick (limit : ℕ) (s : SchedState) (h : s.flagsOK) : (tick limit s).flagsOK := by
  obtain ⟨hd, hf⟩ := h
  unfold tick
  by_cases hp : s.processing.isEmpty
  · by_cases hq : s.queue.isEmpty
    · rw [if_pos hp, if_pos hq]
      exact ⟨hd, hf⟩
    · rw [if_pos hp, if_neg hq]
      exact ⟨hd, hf⟩
  · rw [if_neg hp]
    constructor
    · intro it hit
      rcases List.mem_append.mp hit with h1 | h1
      · exact hd it h1
      · have h2 := (List.mem_filter.mp h1).2
        simpa using h2
    · intro it hit
      rcases List.mem_append.mp hit with h1 | h1
      · exact hf it h1
      · exact (List.mem_filter.mp h1).2

lemma processing_bound_tick (limit : ℕ) (s : SchedState)
    (h : s.processing.length ≤ limit) : (tick limit s).processing.length ≤ limit := by
  unfold tick
  by_cases hp : s.processing.isEmpty
  · by_cases hq : s.queue.isEmpty
    · rw [if_pos hp, if_pos hq]
      exact h
    · rw [if_pos hp, if_neg hq]
      dsimp only
      rw [List.length_map, List.length_take]
      omega
  · rw [if_neg hp]
    dsimp only
    calc ((s.processing.map (fun p => (p.1, p.2 - 1))).filter
          (fun p => decide (p.2 ≠ 0))).length
        ≤ (s.processing.map (fun p => (p.1, p.2 - 1))).length := List.length_filter_le _ _
      _ = s.processing.length := List.length_map _ _
      _ ≤ limit := h

/-! ### C8: bounded concurrency and batch draining -/

/-- C8: with a positive concurrency limit, at most limit items are in
flight at every instant, the queue is never touched while a batch is
still in flight (the scheduler awaits the whole batch before pulling the
next one from the front), and eventually the queue and the in-flight set
are empty with every submitted item Done or Failed. -/
theorem processQueue_spec (items : List BatchItem) (limit : ℕ) (hlim : 0 < limit) :
    (∀ k, ((run limit (initState items) k).processing).length ≤ limit) ∧
    (∀ k, (run limit (initState items) k).processing ≠ [] →
        (run limit (initState items) (k + 1)).queue = (run limit (initState items) k).queue) ∧
    ∃ k, (run limit (initState items) k).queue = [] ∧
      (run limit (initState items) k).processing = [] ∧
      ∀ it ∈ items, it ∈ (run limit (initState items) k).done ∨
        it ∈ (run limit (initState items) k).failed := by
  refine ⟨?_, ?_, ?_⟩
  · intro k
    exact run_preserves limit (fun s => s.processing.length ≤ limit)
      (processing_bound_tick limit) k (initState items) (by simp [initState])
  · intro k hne
    rw [run_succ_out]
    unfold tick
    rw [if_neg (by simpa [List.isEmpty_iff] using hne)]
  · have hterm := run_terminal_of_measure limit hlim (schedMeasure (initState items))
      (initState items) le_rfl
    have htracks : (run limit (initState items) (schedMeasure (initState items))).tracks items :=
      run_preserves limit (SchedState.tracks items) (tracks_tick limit items)
        (schedMeasure (initState items)) (initState items) (fun it hit => Or.inl hit)
    refine ⟨schedMeasure (initState items), hterm.1, hterm.2, ?_⟩
    intro it hit
    rcases htracks it hit with hq | ⟨t, hp⟩ | hd | hf
    · rw [hterm.1] at hq
      simp at hq
    · rw [hterm.2] at hp
      simp at hp
    · exact Or.inl hd
    · exact Or.inr hf

/-- C8 witness: the bound instantiated for a batch of five items with
concurrency limit 2, observed after three scheduler turns. -/
theorem processQueue_spec_witness :
    ((run 2 (initState [⟨0, false, 1⟩, ⟨1, true, 2⟩, ⟨2, false, 1⟩, ⟨3, false, 3⟩,
        ⟨4, true, 1⟩]) 3).processing).length ≤ 2 :=
  (processQueue_spec [⟨0, false, 1⟩, ⟨1, true, 2⟩, ⟨2, false, 1⟩, ⟨3, false, 3⟩, ⟨4, true, 1⟩]
    2 (by norm_num)).1 3

/-! ### C9: per-item error isolation -/

/-- C9: eventually every failing item is Failed and not Done, and every
non-failing item is Done and not Failed: one item failing its pipeline
never prevents its batch siblings from completing. -/
theorem analyzeAudio_isolation (items : List BatchItem) (limit : ℕ) (hlim : 0 < limit) :
    ∃ k, ∀ it ∈ items,
      (it.fails = true → it ∈ (run limit (initState items) k).failed ∧
        it ∉ (run limit (initState items) k).done) ∧
      (it.fails = false → it ∈ (run limit (initState items) k).done ∧
        it ∉ (run limit (initState items) k).failed) := by
  have hterm := run_terminal_of_measure limit hlim (schedMeasure (initState items))
    (initState items) le_rfl
  have htracks := run_preserves limit (SchedState.tracks items) (tracks_tick limit items)
    (schedMeasure (initState items)) (initState items) (fun it hit => Or.inl hit)
  have hflags := run_preserves limit SchedState.flagsOK (flagsOK_tick limit)
    (schedMeasure (initState items)) (initState items)
    ⟨fun it hmem => by simp [initState] at hmem, fun it hmem => by simp [initState] at hmem⟩
  refine ⟨schedMeasure (initState items), ?_⟩
  intro it hit
  have hdone : it ∈ (run limit (initState items) (schedMeasure (initState items))).done ∨
      it ∈ (run limit (initState items) (schedMeasure (initState items))).failed := by
    rcases htracks it hit with hq | ⟨t, hp⟩ | hd | hf
    · rw [hterm.1] at hq
      simp at hq
    · rw [hterm.2] at hp
      simp at hp
    · exact Or.inl hd
    · exact Or.inr hf
  constructor
  · intro hfl
    rcases hdone with hd | hf
    · have h2 := hflags.1 it hd
      rw [hfl] at h2
      simp at h2
    · refine ⟨hf, fun hd => ?_⟩
      have h2 := hflags.1 it hd
      rw [hfl] at h2
      simp at h2
  · intro hfl
    rcases hdone with hd | hf
    · refine ⟨hd, fun hf2 => ?_⟩
      have h2 := hflags.2 it hf2
      rw [hfl] at h2
      simp at h2
    · have h2 := hflags.2 it hf
      rw [hfl] at h2
      simp at h2

/-- C9 witness: a three-item batch whose middle item fails, with
concurrency limit 2. -/
theorem analyzeAudio_isolation_witness :
    ∃ k, ∀ it ∈ [(⟨0, false, 1⟩ : BatchItem), ⟨1, true, 2⟩, ⟨2, false, 1⟩],
      (it.fails = true →
        it ∈ (run 2 (initState [(⟨0, false, 1⟩ : BatchItem), ⟨1, true, 2⟩,
          ⟨2, false, 1⟩]) k).failed ∧
        it ∉ (run 2 (initState [(⟨0, false, 1⟩ : BatchItem), ⟨1, true, 2⟩,
          ⟨2, false, 1⟩]) k).done) ∧
      (it.fails = false →
        it ∈ (run 2 (initState [(⟨0, false, 1⟩ : BatchItem), ⟨1, true, 2⟩,
          ⟨2, false, 1⟩]) k).done ∧
        it ∉ (run 2 (initState [(⟨0, false, 1⟩ : BatchItem), ⟨1, true, 2⟩,
          ⟨2, false, 1⟩]) k).failed) :=
  analyzeAudio_isolation [⟨0, false, 1⟩, ⟨1, true, 2⟩, ⟨2, false, 1⟩] 2 (by norm_num)
